import Mathlib

/-!
Verification of the HTML-to-domain extraction layer of compass-interface-core.

The Python source (`compass/core/_scrapers/member.py` and helpers) is shallowly
embedded: pure string manipulation is modelled over `String` (with structural
recursion over the underlying character list so that everything evaluates in
the kernel), dates are modelled as calendar triples or as integer day numbers
where only arithmetic on day differences matters, raising Python functions
return `Except`, and `None`-able values are `Option`s.
-/

/-! ## String primitives

Executable models of the Python `str` operations used by the scrapers
(`str.lower`, `in`, `startswith`, `removeprefix`, `rsplit`, `split`).
All are structural recursions over `List Char` so `decide` can evaluate them.
The sources only ever apply `.lower()` to ASCII role titles/classes, so the
ASCII case map suffices.
-/

def lowerChar (c : Char) : Char :=
  if 65 ≤ c.toNat ∧ c.toNat ≤ 90 then Char.ofNat (c.toNat + 32) else c

def strLower (s : String) : String := ⟨s.data.map lowerChar⟩

/-- Python `s.startswith(pre)`. -/
def startsWithStr (s pre : String) : Bool := pre.data.isPrefixOf s.data

/-- Python `s.removeprefix(pre)`. -/
def removePre (s pre : String) : String :=
  if pre.data.isPrefixOf s.data then ⟨s.data.drop pre.data.length⟩ else s

def containsSubAux (needle : List Char) : List Char → Bool
  | [] => needle.isPrefixOf []
  | c :: rest => needle.isPrefixOf (c :: rest) || containsSubAux needle rest

/-- Python `needle in hay` (substring containment). -/
def containsSub (hay needle : String) : Bool := containsSubAux needle.data hay.data

/-- Split at the rightmost occurrence of `sep`; `none` when `sep` does not
occur.  Models Python `s.rsplit(sep, 1)` (which yields a 2-list exactly when
`sep` occurs; unpacking a 1-list raises `ValueError`, modelled by `none`). -/
def rsplit1Aux (sep : List Char) : List Char → Option (List Char × List Char)
  | [] => none
  | c :: rest =>
    match rsplit1Aux sep rest with
    | some (b, a) => some (c :: b, a)
    | none =>
      if sep.isPrefixOf (c :: rest) then some ([], (c :: rest).drop sep.length)
      else none

def rsplit1 (s sep : String) : Option (String × String) :=
  (rsplit1Aux sep.data s.data).map fun p => (⟨p.1⟩, ⟨p.2⟩)

/-- Python `s.rsplit(sep, 2)` unpacked into three parts; `none` when `sep`
occurs fewer than two times (Python then yields fewer than 3 parts and the
3-variable unpacking raises `ValueError`). -/
def rsplit2 (s sep : String) : Option (String × String × String) :=
  (rsplit1 s sep).bind fun p =>
    (rsplit1 p.1 sep).map fun q => (q.1, q.2, p.2)

def splitOnCharAux (sep : Char) : List Char → List (List Char)
  | [] => [[]]
  | c :: rest =>
    match splitOnCharAux sep rest with
    | [] => [[c]]
    | h :: t => if c = sep then [] :: h :: t else (c :: h) :: t

/-- Python `s.split(sep)` for a single-character separator. -/
def splitOnChar (s : String) (sep : Char) : List String :=
  (splitOnCharAux sep s.data).map fun l => ⟨l⟩

def digitVal (c : Char) : Option Nat :=
  if 48 ≤ c.toNat ∧ c.toNat ≤ 57 then some (c.toNat - 48) else none

def strToNatAux : Option Nat → List Char → Option Nat
  | acc, [] => acc
  | acc, c :: rest =>
    strToNatAux (acc.bind fun n => (digitVal c).map fun d => n * 10 + d) rest

/-- Parse a non-empty all-digit string to a `Nat`, else `none` (Python `int(s)`
success/failure for the numeric strings the scrapers feed it). -/
def strToNat (s : String) : Option Nat :=
  if s.data = [] then none else strToNatAux (some 0) s.data

/-! ## Dates and `parse_date`

`compass.core.util.type_coercion.parse_date` is exercised by the repository's
tests but the module itself is not among the provided sources.

Modelled from the spec: `parse_date(value)` returns `None` for empty input,
a date for any non-empty parseable string — supporting at minimum
day-month(short or long name)-year formats — and fails with a ParseError whose
message includes the offending string for non-empty unparseable input
(test: "Parsing string `abc` into a date failed!").
-/

structure Date where
  year : Nat
  month : Nat
  day : Nat
deriving DecidableEq, Repr

def monthNames : List (String × Nat) :=
  [("Jan", 1), ("January", 1), ("Feb", 2), ("February", 2), ("Mar", 3), ("March", 3),
   ("Apr", 4), ("April", 4), ("May", 5), ("Jun", 6), ("June", 6), ("Jul", 7), ("July", 7),
   ("Aug", 8), ("August", 8), ("Sep", 9), ("September", 9), ("Oct", 10), ("October", 10),
   ("Nov", 11), ("November", 11), ("Dec", 12), ("December", 12)]

def lookupAssoc {α : Type} : List (String × α) → String → Option α
  | [], _ => none
  | e :: rest, k => if e.1 = k then some e.2 else lookupAssoc rest k

def parseDateError (s : String) : String :=
  "Parsing string `" ++ s ++ "` into a date failed!"

def parse_date (s : String) : Except String (Option Date) :=
  if s = "" then .ok none
  else
    match splitOnChar s ' ' with
    | [d, m, y] =>
      match strToNat d, lookupAssoc monthNames m, strToNat y with
      | some dn, some mn, some yn => .ok (some ⟨yn, mn, dn⟩)
      | _, _, _ => .error (parseDateError s)
    | _ => .error (parseDateError s)

instance {ε α : Type} [DecidableEq ε] [DecidableEq α] : DecidableEq (Except ε α) := fun x y =>
  match x, y with
  | .error a, .error b =>
    if h : a = b then .isTrue (congrArg Except.error h)
    else .isFalse fun hc => h (Except.error.inj hc)
  | .ok a, .ok b =>
    if h : a = b then .isTrue (congrArg Except.ok h)
    else .isFalse fun hc => h (Except.ok.inj hc)
  | .error _, .ok _ => .isFalse fun hc => Except.noConfusion hc
  | .ok _, .error _ => .isFalse fun hc => Except.noConfusion hc

/-- Python `parse(cell.get(...))` where the value may be absent (`None`). -/
def parseOptDate : Option String → Except String (Option Date)
  | none => .ok none
  | some s => parse_date s

/-! ## `_extract_review_date` (member.py lines 820-827) -/

def _extract_review_date (review_status : String) :
    Except String (String × Option Date) :=
  if startsWithStr review_status "Full Review Due " || startsWithStr review_status "Full Ending " then
    (parse_date (removePre (removePre review_status "Full Review Due ") "Full Ending ")).map
      fun review_date => ("Full", review_date)
  else
    .ok (review_status, none)

/-! ## `_process_address` (member.py lines 807-817)

Python `ValueError` escaping the function is modelled as `Except.error ()`.
-/

structure _AddressData where
  unparsed_address : Option String
  country : Option String
  postcode : Option String
  county : Option String
  town : Option String
  street : Option String
deriving DecidableEq, Repr

def _process_address (address : String) : Except Unit _AddressData :=
  if address ≠ "" then
    match rsplit1 address ". " with
    | none => .error ()
    | some (addr_main, addr_code) =>
      match rsplit1 addr_code " " with
      | none => .error ()
      | some (postcode, country) =>
        match rsplit2 addr_main ", " with
        | some (street, town, county) =>
          .ok ⟨some address, some country, some postcode, some county, some town, some street⟩
        | none =>
          match rsplit1 addr_main ", " with
          | none => .error ()
          | some (street, town) =>
            .ok ⟨some address, some country, some postcode, none, some town, some street⟩
  else
    .ok ⟨none, none, none, none, none, none⟩

/-- C5: the review-status extractor returns status "Full" with
review_date = parse_date of the remainder after prefix removal when the input
starts with "Full Review Due " or "Full Ending ", and otherwise returns the
string verbatim with review_date = None; in particular
"Full Review Due 12 Jan 2024" yields ("Full", 12 Jan 2024) and "Pending"
yields ("Pending", None). -/
theorem extract_review_status_spec :
    (∀ s : String,
      (startsWithStr s "Full Review Due " || startsWithStr s "Full Ending ") = true →
      _extract_review_date s =
        (parse_date (removePre (removePre s "Full Review Due ") "Full Ending ")).map
          fun d => ("Full", d)) ∧
    (∀ s : String,
      (startsWithStr s "Full Review Due " || startsWithStr s "Full Ending ") = false →
      _extract_review_date s = .ok (s, none)) ∧
    _extract_review_date "Full Review Due 12 Jan 2024" = .ok ("Full", some ⟨2024, 1, 12⟩) ∧
    _extract_review_date "Pending" = .ok ("Pending", none) := by
  refine ⟨fun s h => ?_, fun s h => ?_, by decide, by decide⟩
  · simp only [_extract_review_date, h, if_true]
  · simp only [_extract_review_date, h, Bool.false_eq_true, if_false]

theorem extract_review_status_spec_witness :
    _extract_review_date "Full Ending 01 Jan 2000" =
      (parse_date (removePre (removePre "Full Ending 01 Jan 2000" "Full Review Due ")
        "Full Ending ")).map (fun d => ("Full", d)) :=
  extract_review_status_spec.1 "Full Ending 01 Jan 2000" (by decide)

/-- C6: the address parser splits on the last ". " into body and
"postcode country", splits the tail on its last space, and splits the body on
commas from the right (3 segments: street/town/county, 2 segments: no county);
the worked examples parse as stated with unparsed_address preserved verbatim,
and empty input gives the all-null record. -/
theorem process_address_spec :
    _process_address "12 High St, Anytown, Anyshire. AB1 2CD UK" =
      .ok ⟨some "12 High St, Anytown, Anyshire. AB1 2CD UK", some "UK", some "AB1 2CD",
           some "Anyshire", some "Anytown", some "12 High St"⟩ ∧
    _process_address "12 High St, Anytown. AB1 2CD UK" =
      .ok ⟨some "12 High St, Anytown. AB1 2CD UK", some "UK", some "AB1 2CD",
           none, some "Anytown", some "12 High St"⟩ ∧
    _process_address "" = .ok ⟨none, none, none, none, none, none⟩ ∧
    ∀ (s : String) (r : _AddressData), s ≠ "" → _process_address s = .ok r →
      r.unparsed_address = some s := by
  refine ⟨by decide, by decide, by decide, fun s r hs hr => ?_⟩
  unfold _process_address at hr
  rw [if_pos hs] at hr
  repeat' split at hr
  all_goals first
    | (injection hr with h; subst h; rfl)
    | injection hr

theorem process_address_spec_witness :
    (_AddressData.mk (some "1 A St, B. C1 D") (some "D") (some "C1") none (some "B")
      (some "1 A St")).unparsed_address = some "1 A St, B. C1 D" :=
  process_address_spec.2.2.2 "1 A St, B. C1 D" _ (by decide) (by decide)

def exceptIsOk {ε α : Type} : Except ε α → Bool
  | .ok _ => true
  | .error _ => false

theorem rsplit2_isSome_left {s sep : String} {x : String × String × String}
    (h : rsplit2 s sep = some x) : (rsplit1 s sep).isSome = true := by
  unfold rsplit2 at h
  cases hh : rsplit1 s sep with
  | none => rw [hh] at h; simp at h
  | some p => simp

/-- C7 counterexample: the address parser does raise (ValueError) on the
non-empty input "12 High St", which contains no ". " separator. -/
theorem process_address_raises_counterexample :
    _process_address "12 High St" = .error () := by decide

/-- C7 amended: the address parser succeeds exactly when the input is empty,
or it contains ". ", the tail after the last ". " contains a space, and the
body before it contains ", "; in the successful 3-segment-failure case the
2-segment retry is the recovery point.  Otherwise the ValueError propagates
(so it is not true that the parser never raises). -/
theorem process_address_amended :
    (∀ s : String, exceptIsOk (_process_address s) = true ↔
      (s = "" ∨ ∃ b t, rsplit1 s ". " = some (b, t) ∧
        (rsplit1 t " ").isSome = true ∧ (rsplit1 b ", ").isSome = true)) ∧
    (∀ s b t pc ctry st tw : String, s ≠ "" →
      rsplit1 s ". " = some (b, t) → rsplit1 t " " = some (pc, ctry) →
      rsplit2 b ", " = none → rsplit1 b ", " = some (st, tw) →
      _process_address s = .ok ⟨some s, some ctry, some pc, none, some tw, some st⟩) := by
  constructor
  · intro s
    unfold _process_address
    by_cases hs : s = ""
    · subst hs; simp [exceptIsOk]
    · rw [if_pos hs]
      cases h1 : rsplit1 s ". " with
      | none => simp [exceptIsOk, hs, h1]
      | some p =>
        obtain ⟨b, t⟩ := p
        cases h2 : rsplit1 t " " with
        | none => simp [exceptIsOk, hs, h1, h2]
        | some q =>
          obtain ⟨pc, ctry⟩ := q
          cases h3 : rsplit2 b ", " with
          | some r3 =>
            have h4 := rsplit2_isSome_left h3
            obtain ⟨x, y, z⟩ := r3
            simp [exceptIsOk, hs, h1, h2, h3, h4]
            exact ⟨b, t, ⟨rfl, rfl⟩, by rw [h2]; rfl, h4⟩
          | none =>
            cases h4 : rsplit1 b ", " with
            | none => simp [exceptIsOk, hs, h1, h2, h3, h4]
            | some r4 =>
              obtain ⟨x, y⟩ := r4
              simp [exceptIsOk, hs, h1, h2, h3, h4]
              exact ⟨b, t, ⟨rfl, rfl⟩, by rw [h2]; rfl, by rw [h4]; rfl⟩
  · intro s b t pc ctry st tw hs h1 h2 h3 h4
    unfold _process_address
    rw [if_pos hs]
    simp only [h1, h2, h3, h4]

theorem process_address_amended_witness :
    _process_address "1 A St, B. C1 D" =
      .ok ⟨some "1 A St, B. C1 D", some "D", some "C1", none, some "B", some "1 A St"⟩ :=
  process_address_amended.2 "1 A St, B. C1 D" "1 A St, B" "C1 D" "C1" "D" "1 A St" "B"
    (by decide) (by decide) (by decide) (by decide) (by decide)

/-- C8: parse_date returns None for empty input, parses short and long month
names identically ("01 Jan 2000" = "01 January 2000" = 1 Jan 2000), and fails
on non-empty unparseable input with a ParseError whose message includes the
offending string. -/
theorem parse_date_spec :
    parse_date "" = .ok none ∧
    parse_date "01 Jan 2000" = .ok (some ⟨2000, 1, 1⟩) ∧
    parse_date "01 January 2000" = .ok (some ⟨2000, 1, 1⟩) ∧
    parse_date "abc" = .error (parseDateError "abc") ∧
    containsSub (parseDateError "abc") "abc" = true := by
  refine ⟨by decide, by decide, by decide, by decide, by decide⟩

/-! ## Interval reducer (`_reduce_date_list`, member.py lines 749-789)

Dates are embedded as integer day numbers; `(end - start).days` becomes plain
integer subtraction.  Python's `sorted` on date pairs is the lexicographic
order on pairs; `sorted(dl)[0]` on an empty input raises IndexError, modelled
by `none`.
-/

/-- Lexicographic order on (start, end) pairs — Python tuple comparison. -/
def pairLe (a b : Int × Int) : Prop := a.1 < b.1 ∨ (a.1 = b.1 ∧ a.2 ≤ b.2)

instance : DecidableRel pairLe := fun a b => by unfold pairLe; infer_instance

instance : IsTotal (Int × Int) pairLe := ⟨by intro a b; unfold pairLe; omega⟩

instance : IsTrans (Int × Int) pairLe := ⟨by intro a b c; unfold pairLe; omega⟩

/-- Python `sorted(dl)`.  `pairLe` is antisymmetric, so any sorted
reordering of `dl` is the unique sorted list; insertion sort realises it. -/
def sortPairs (dl : List (Int × Int)) : List (Int × Int) :=
  List.insertionSort pairLe dl

/-- The scanning loop of `_reduce_date_list`: iterate over the sorted pairs
with running bounds `(start_, end_)` seeded from the first pair, and collect
the pairs found to form a disjoint set ("unused"), in order. -/
def scanPairs : List (Int × Int) → Int × Int → (Int × Int) × List (Int × Int)
  | [], se => (se, [])
  | (s, e) :: rest, (s_, e_) =>
    if s < s_ ∧ e > e_ then scanPairs rest (s, e)
    else if s ≤ e_ ∧ e_ < e then scanPairs rest (s_, e)
    else if e ≥ s_ ∧ s_ > s then scanPairs rest (s, e_)
    else if s ≥ s_ ∧ e ≤ e_ then scanPairs rest (s_, e_)
    else if (e_ - s).natAbs = 1 ∨ (s_ - e).natAbs = 1 then
      scanPairs rest (min s s_, max e e_)
    else
      let r := scanPairs rest (s_, e_)
      (r.1, (s, e) :: r.2)

/-- Recursion of `_reduce_date_list` with explicit fuel (each recursive call
receives a strictly shorter list, so `dl.length` fuel always suffices). -/
def reduceAux : Nat → List (Int × Int) → Option (List (Int × Int))
  | 0, _ => none
  | fuel + 1, dl =>
    match sortPairs dl with
    | [] => none
    | p :: rest =>
      let r := scanPairs (p :: rest) p
      match r.2 with
      | [] => some [r.1]
      | u => (reduceAux fuel u).map (r.1 :: ·)

def _reduce_date_list (dl : List (Int × Int)) : Option (List (Int × Int)) :=
  reduceAux dl.length dl

/-- `_membership_duration` (member.py lines 792-795): inclusive day count of
the reduced ranges, normalised to years by 365.2425 (modelled in ℚ). -/
def _membership_duration (dates : List (Int × Int)) : Option ℚ :=
  (_reduce_date_list dates).map fun l =>
    (((l.map fun p => p.2 - p.1 + 1).sum : Int) : ℚ) / (3652425 / 10000 : ℚ)

/-- Written from the spec: the set of inclusive days covered by the union of
all the intervals. -/
def coveredDays (dl : List (Int × Int)) : Finset ℤ :=
  dl.foldr (fun p acc => Finset.Icc p.1 p.2 ∪ acc) ∅

example : _reduce_date_list [(1, 10), (11, 20)] = some [(1, 20)] := by decide
example : _reduce_date_list [(1, 5), (152, 156)] = some [(1, 5), (152, 156)] := by decide
example : _membership_duration [(1, 10), (11, 20)] =
    some ((20 : ℚ) / (3652425 / 10000 : ℚ)) := by
  rw [_membership_duration, show _reduce_date_list [(1, 10), (11, 20)] = some [(1, 20)] from by decide]
  norm_num
example : _reduce_date_list ([] : List (Int × Int)) = none := by decide

theorem coveredDays_cons (p : Int × Int) (l : List (Int × Int)) :
    coveredDays (p :: l) = Finset.Icc p.1 p.2 ∪ coveredDays l := rfl

theorem coveredDays_nil : coveredDays [] = (∅ : Finset ℤ) := rfl

theorem coveredDays_cons_mk (a b : Int) (l : List (Int × Int)) :
    coveredDays ((a, b) :: l) = Finset.Icc a b ∪ coveredDays l := rfl

theorem mem_coveredDays {x : ℤ} : ∀ {dl : List (Int × Int)},
    x ∈ coveredDays dl ↔ ∃ p ∈ dl, p.1 ≤ x ∧ x ≤ p.2 := by
  intro dl
  induction dl with
  | nil => simp [coveredDays]
  | cons p l ih => simp [coveredDays_cons, Finset.mem_union, Finset.mem_Icc, ih,
      List.mem_cons, or_and_right, exists_or]

theorem coveredDays_perm {dl dl' : List (Int × Int)} (h : dl.Perm dl') :
    coveredDays dl = coveredDays dl' := by
  ext x
  simp only [mem_coveredDays]
  constructor
  · rintro ⟨p, hp, h1, h2⟩; exact ⟨p, h.subset hp, h1, h2⟩
  · rintro ⟨p, hp, h1, h2⟩; exact ⟨p, h.symm.subset hp, h1, h2⟩

theorem sortPairs_perm (dl : List (Int × Int)) : (sortPairs dl).Perm dl :=
  List.perm_insertionSort _ _

theorem sortPairs_sorted_fst (dl : List (Int × Int)) :
    List.Sorted (fun a b : Int × Int => a.1 ≤ b.1) (sortPairs dl) :=
  (List.sorted_insertionSort pairLe dl).imp (fun h => by unfold pairLe at h; omega)

theorem scanPairs_unused_length : ∀ (l : List (Int × Int)) (se : Int × Int),
    (scanPairs l se).2.length ≤ l.length := by
  intro l
  induction l with
  | nil => intro se; simp [scanPairs]
  | cons p rest ih =>
    intro se
    obtain ⟨s, e⟩ := p
    obtain ⟨s_, e_⟩ := se
    simp only [scanPairs]
    repeat' split
    all_goals simp only [List.length_cons]
    all_goals first
      | exact le_trans (ih _) (Nat.le_succ _)
      | exact Nat.succ_le_succ (ih _)

/-- Once the scan reaches a pair strictly beyond the running end plus one,
every remaining pair (all starting at least as late) is marked unused and the
running bounds stay fixed. -/
theorem scanPairs_all_unused : ∀ (l : List (Int × Int)) (s_ e_ : Int),
    s_ ≤ e_ → (∀ p ∈ l, p.1 ≤ p.2) → (∀ p ∈ l, e_ + 1 < p.1) →
    scanPairs l (s_, e_) = ((s_, e_), l) := by
  intro l
  induction l with
  | nil => intro s_ e_ _ _ _; rfl
  | cons p rest ih =>
    intro s_ e_ hse hv hd
    obtain ⟨s, e⟩ := p
    have h1 : e_ + 1 < s := hd (s, e) (List.mem_cons_self _ _)
    have h2 : s ≤ e := hv (s, e) (List.mem_cons_self _ _)
    simp only [scanPairs]
    rw [if_neg (by omega), if_neg (by omega), if_neg (by omega), if_neg (by omega),
        if_neg (by omega)]
    rw [ih s_ e_ hse (fun q hq => hv q (List.mem_cons_of_mem _ hq))
        (fun q hq => hd q (List.mem_cons_of_mem _ hq))]

theorem scanPairs_cons_self (s e : Int) (rest : List (Int × Int)) :
    scanPairs ((s, e) :: rest) (s, e) = scanPairs rest (s, e) := by
  simp only [scanPairs]
  rw [if_neg (by omega), if_neg (by omega), if_neg (by omega), if_pos (by omega)]

/-- Invariants of the scanning loop on a start-sorted list whose starts all
dominate the seed start: the final start is the seed start, the final end only
grows, the final covering interval together with the unused pairs covers
exactly what the seed interval and the input covered, every unused pair
starts strictly beyond the final end plus one, and unused pairs stay valid. -/
theorem scanPairs_spec : ∀ (l : List (Int × Int)) (s_ e_ : Int),
    (∀ p ∈ l, p.1 ≤ p.2) → (∀ p ∈ l, s_ ≤ p.1) → s_ ≤ e_ →
    List.Sorted (fun a b : Int × Int => a.1 ≤ b.1) l →
    (scanPairs l (s_, e_)).1.1 = s_ ∧
    e_ ≤ (scanPairs l (s_, e_)).1.2 ∧
    Finset.Icc s_ (scanPairs l (s_, e_)).1.2 ∪ coveredDays (scanPairs l (s_, e_)).2 =
      Finset.Icc s_ e_ ∪ coveredDays l ∧
    (∀ p ∈ (scanPairs l (s_, e_)).2, (scanPairs l (s_, e_)).1.2 + 1 < p.1) ∧
    (∀ p ∈ (scanPairs l (s_, e_)).2, p.1 ≤ p.2) := by
  intro l
  induction l with
  | nil =>
    intro s_ e_ _ _ _ _
    exact ⟨rfl, le_refl _, rfl, by simp [scanPairs, coveredDays], by simp [scanPairs, coveredDays]⟩
  | cons p rest ih =>
    intro s_ e_ hv hd hse hsort
    obtain ⟨s, e⟩ := p
    have hs1 : s_ ≤ s := hd _ (List.mem_cons_self _ _)
    have hse2 : s ≤ e := hv _ (List.mem_cons_self _ _)
    have hv' : ∀ q ∈ rest, q.1 ≤ q.2 := fun q hq => hv q (List.mem_cons_of_mem _ hq)
    have hd' : ∀ q ∈ rest, s_ ≤ q.1 := fun q hq => hd q (List.mem_cons_of_mem _ hq)
    have hdom : ∀ q ∈ rest, s ≤ q.1 := fun q hq => List.rel_of_sorted_cons hsort q hq
    have hsort' := hsort.of_cons
    simp only [scanPairs]
    by_cases hc1 : s < s_ ∧ e > e_
    · exact absurd hc1 (by omega)
    rw [if_neg hc1]
    by_cases hc2 : s ≤ e_ ∧ e_ < e
    · rw [if_pos hc2]
      obtain ⟨ih1, ih2, ih3, ih4, ih5⟩ := ih s_ e hv' hd' (by omega) hsort'
      refine ⟨ih1, by omega, ?_, ih4, ih5⟩
      rw [ih3, coveredDays_cons]
      have hsplit : Finset.Icc s_ e = Finset.Icc s_ e_ ∪ Finset.Icc s e := by
        ext x
        simp only [Finset.mem_Icc, Finset.mem_union]
        omega
      rw [hsplit, Finset.union_assoc]
    rw [if_neg hc2]
    by_cases hc3 : e ≥ s_ ∧ s_ > s
    · exact absurd hc3 (by omega)
    rw [if_neg hc3]
    by_cases hc4 : s ≥ s_ ∧ e ≤ e_
    · rw [if_pos hc4]
      obtain ⟨ih1, ih2, ih3, ih4, ih5⟩ := ih s_ e_ hv' hd' hse hsort'
      refine ⟨ih1, ih2, ?_, ih4, ih5⟩
      rw [ih3, coveredDays_cons]
      have habs : Finset.Icc s_ e_ ∪ Finset.Icc s e = Finset.Icc s_ e_ :=
        Finset.union_eq_left.mpr (Finset.Icc_subset_Icc (by omega) (by omega))
      rw [← Finset.union_assoc, habs]
    rw [if_neg hc4]
    by_cases hc5 : (e_ - s).natAbs = 1 ∨ (s_ - e).natAbs = 1
    · rw [if_pos hc5]
      have hadj : s = e_ + 1 := by omega
      have hmin : min s s_ = s_ := min_eq_right (by omega)
      have hmax : max e e_ = e := max_eq_left (by omega)
      rw [hmin, hmax]
      obtain ⟨ih1, ih2, ih3, ih4, ih5⟩ := ih s_ e hv' hd' (by omega) hsort'
      refine ⟨ih1, by omega, ?_, ih4, ih5⟩
      rw [ih3, coveredDays_cons]
      have hsplit : Finset.Icc s_ e = Finset.Icc s_ e_ ∪ Finset.Icc s e := by
        ext x
        simp only [Finset.mem_Icc, Finset.mem_union]
        omega
      rw [hsplit, Finset.union_assoc]
    rw [if_neg hc5]
    have hgap : e_ + 1 < s := by omega
    rw [scanPairs_all_unused rest s_ e_ hse hv'
      (fun q hq => by have := hdom q hq; omega)]
    refine ⟨rfl, le_refl _, rfl, ?_, hv⟩
    show ∀ q ∈ (s, e) :: rest, e_ + 1 < q.1
    intro q hq
    rcases List.mem_cons.mp hq with hq | hq
    · rw [hq]; exact hgap
    · have := hdom q hq; omega

/-- The reducer succeeds on every non-empty valid input and the inclusive day
counts of the emitted covering intervals sum to the size of the union of the
input intervals. -/
theorem reduceAux_spec : ∀ (fuel : Nat) (dl : List (Int × Int)),
    dl ≠ [] → dl.length ≤ fuel → (∀ p ∈ dl, p.1 ≤ p.2) →
    ∃ L, reduceAux fuel dl = some L ∧
      (L.map fun p => p.2 - p.1 + 1).sum = ((coveredDays dl).card : Int) := by
  intro fuel
  induction fuel with
  | zero =>
    intro dl hne hlen _
    exact absurd (List.length_eq_zero.mp (Nat.le_zero.mp hlen)) hne
  | succ fuel ih =>
    intro dl hne hlen hv
    have hperm := sortPairs_perm dl
    cases hsp : sortPairs dl with
    | nil =>
      rw [hsp] at hperm
      exact absurd hperm.symm.eq_nil hne
    | cons p rest =>
      obtain ⟨s, e⟩ := p
      rw [hsp] at hperm
      have hsorted : List.Sorted (fun a b : Int × Int => a.1 ≤ b.1) ((s, e) :: rest) := by
        rw [← hsp]; exact sortPairs_sorted_fst dl
      have hvs : ∀ q ∈ (s, e) :: rest, q.1 ≤ q.2 := fun q hq => hv q (hperm.subset hq)
      have hcov : coveredDays dl = coveredDays ((s, e) :: rest) :=
        (coveredDays_perm hperm).symm
      have hlen2 : rest.length + 1 = dl.length := by
        have := hperm.length_eq
        simpa using this
      have hse : s ≤ e := hvs _ (List.mem_cons_self _ _)
      obtain ⟨c1, c2, c3, c4, c5⟩ := scanPairs_spec rest s e
        (fun q hq => hvs q (List.mem_cons_of_mem _ hq))
        (fun q hq => List.rel_of_sorted_cons hsorted q hq)
        hse hsorted.of_cons
      have hulen := scanPairs_unused_length rest (s, e)
      simp only [reduceAux, hsp, scanPairs_cons_self]
      cases hu : (scanPairs rest (s, e)).2 with
      | nil =>
        refine ⟨[(scanPairs rest (s, e)).1], rfl, ?_⟩
        rw [hu, coveredDays_nil, Finset.union_empty] at c3
        simp only [List.map_cons, List.map_nil, List.sum_cons, List.sum_nil, add_zero]
        rw [c1, hcov, coveredDays_cons_mk, ← c3, Int.card_Icc]
        omega
      | cons u0 us =>
        have hune : u0 :: us ≠ [] := by simp
        have hulen2 : (u0 :: us).length ≤ fuel := by
          rw [← hu]
          omega
        have huv : ∀ q ∈ u0 :: us, q.1 ≤ q.2 := by rw [← hu]; exact c5
        obtain ⟨L', hL', hsum'⟩ := ih (u0 :: us) hune hulen2 huv
        refine ⟨(scanPairs rest (s, e)).1 :: L', ?_, ?_⟩
        · show Option.map (fun x => (scanPairs rest (s, e)).1 :: x) (reduceAux fuel (u0 :: us)) =
            some ((scanPairs rest (s, e)).1 :: L')
          rw [hL']
          rfl
        have hdisj : Disjoint (Finset.Icc s (scanPairs rest (s, e)).1.2)
            (coveredDays (u0 :: us)) := by
          rw [Finset.disjoint_left]
          intro x hx hx'
          rw [Finset.mem_Icc] at hx
          rw [mem_coveredDays] at hx'
          obtain ⟨q, hq, hq1, hq2⟩ := hx'
          have := c4 q (by rw [hu]; exact hq)
          omega
        have hcard : (coveredDays dl).card =
            (Finset.Icc s (scanPairs rest (s, e)).1.2).card + (coveredDays (u0 :: us)).card := by
          rw [hcov, coveredDays_cons_mk, ← c3, hu, Finset.card_union_of_disjoint hdisj]
        simp only [List.map_cons, List.sum_cons]
        rw [hsum', hcard, c1, Int.card_Icc]
        push_cast
        omega

/-- C1: for every non-empty collection of (start, end) day-number pairs with
start ≤ end, the membership-duration computation returns the total number of
inclusive days covered by the union of all the intervals (overlapping days
counted once) divided by 365.2425; in particular the adjacent input
[(Jan 1, Jan 10), (Jan 11, Jan 20)] (day-of-year numbers 1-20) merges into the
single covering interval of 20 inclusive days, and the disjoint input
[(Jan 1, Jan 5), (Jun 1, Jun 5)] (days 1-5 and 152-156) yields two covering
intervals summed to 10 days. -/
theorem membership_duration_spec :
    (∀ dl : List (Int × Int), dl ≠ [] → (∀ p ∈ dl, p.1 ≤ p.2) →
      _membership_duration dl =
        some (((coveredDays dl).card : ℚ) / (3652425 / 10000 : ℚ))) ∧
    _reduce_date_list [(1, 10), (11, 20)] = some [(1, 20)] ∧
    _membership_duration [(1, 10), (11, 20)] = some ((20 : ℚ) / (3652425 / 10000 : ℚ)) ∧
    _reduce_date_list [(1, 5), (152, 156)] = some [(1, 5), (152, 156)] ∧
    _membership_duration [(1, 5), (152, 156)] =
      some ((5 + 5 : ℚ) / (3652425 / 10000 : ℚ)) := by
  refine ⟨fun dl hne hv => ?_, by decide, ?_, by decide, ?_⟩
  · obtain ⟨L, hL, hsum⟩ := reduceAux_spec dl.length dl hne (le_refl _) hv
    rw [_membership_duration, _reduce_date_list, hL, Option.map_some', hsum]
    push_cast
    rfl
  · rw [_membership_duration,
      show _reduce_date_list [(1, 10), (11, 20)] = some [(1, 20)] from by decide]
    norm_num
  · rw [_membership_duration,
      show _reduce_date_list [(1, 5), (152, 156)] = some [(1, 5), (152, 156)] from by decide]
    norm_num

theorem membership_duration_spec_witness :
    _membership_duration [((3 : Int), (7 : Int))] =
      some (((coveredDays [((3 : Int), (7 : Int))]).card : ℚ) / (3652425 / 10000 : ℚ)) :=
  membership_duration_spec.1 [(3, 7)] (by decide) (by decide)

/-! ## Roles tab (`PeopleScraper.get_roles_tab`, member.py lines 249-360)

The lxml layer is abstracted: a page is its form action plus the list of role
table rows, each row carrying the text of the cells the parser reads (the
checkbox-column normalisation happens before the cells the model sees).
`role_start`/`role_end` hold the values of `parse(cells[3/4])` as integer day
numbers consistent with the reducer embedding (a Compass role row always has a
start date; the end date is empty for open roles).  The status cell is kept
raw and fed to `_extract_review_date` exactly as in the source.
-/

def NON_VOLUNTEER_TITLES : List String :=
  ["group occasional helper",
   "group occasional helper.",
   "district occasional helper",
   "county occasional helper",
   "pvg",
   "occasional helper",
   "county scout council member",
   "county scout council member - nominated representative",
   "county scout council member - nominated youth representative",
   "county scout council member - nominated member (18-24)",
   "district staff",
   "county staff",
   "network member",
   "scout network member",
   "district scout network",
   "district scout network member",
   "county scout network member"]

structure RoleRow where
  role_number : Int
  role_title : String
  role_class : String
  location_name : String
  role_start : Int
  role_end : Option Int
  status_cell : String
  can_view_details : Bool
deriving DecidableEq, Repr

structure RolesPage where
  formAction : String
  rows : List RoleRow
deriving DecidableEq, Repr

structure MemberRoleCore where
  role_number : Int
  membership_number : Int
  role_title : String
  role_class : String
  location_name : String
  role_start : Int
  role_end : Option Int
  role_status : String
  review_date : Option Date
  can_view_details : Bool
deriving DecidableEq, Repr

structure MemberRolesCollection where
  roles : List (Int × MemberRoleCore)
  membership_duration : ℚ
deriving DecidableEq, Repr

inductive ScraperError where
  | permission (msg : String)
  | indexError
  | parseError (msg : String)
  | keyError (key : String)
deriving DecidableEq, Repr

def accessDeniedCN : String := "./ScoutsPortal.aspx?Invalid=AccessCN"

def accessDeniedRole : String := "./ScoutsPortal.aspx?Invalid=Access"

def permissionMsgCN (membership_num : Int) : String :=
  "You do not have permission to the details of " ++ toString membership_num

def permissionMsgRole (role_number : Int) : String :=
  "You do not have permission to the details of role " ++ toString role_number

/-- The `"helper" in role_class.lower() or {role_title.lower()} <=
NON_VOLUNTEER_TITLES` test of member.py line 342. -/
def isNonVolunteer (role_class role_title : String) : Bool :=
  containsSub (strLower role_class) "helper" ||
    NON_VOLUNTEER_TITLES.contains (strLower role_title)

/-- Python dict assignment `d[k] = v`: overwrite in place, else append. -/
def dictInsert {κ α : Type} [DecidableEq κ] (d : List (κ × α)) (k : κ) (v : α) :
    List (κ × α) :=
  if d.any fun e => e.1 = k then d.map fun e => if e.1 = k then (k, v) else e
  else d ++ [(k, v)]

/-- Negation of Python's `statuses_set and role_status not in statuses` skip
condition: whether the row survives the status filter. -/
def statusKept (statuses : Option (List String)) (role_status : String) : Bool :=
  match statuses with
  | some ss => ss.contains role_status
  | none => true

/-- One iteration of the row loop of `get_roles_tab` (member.py lines 313-354),
threading (roles_dates, roles_data). -/
def rolesLoopStep (membership_num today : Int) (keep_non_volunteer_roles : Bool)
    (statuses : Option (List String))
    (acc : List (Int × Int) × List (Int × MemberRoleCore)) (row : RoleRow) :
    Except String (List (Int × Int) × List (Int × MemberRoleCore)) :=
  (_extract_review_date row.status_cell).map fun (role_status, review_date) =>
    let role_details : MemberRoleCore :=
      { role_number := row.role_number, membership_number := membership_num,
        role_title := row.role_title, role_class := row.role_class,
        location_name := row.location_name, role_start := row.role_start,
        role_end := row.role_end, role_status := role_status,
        review_date := review_date, can_view_details := row.can_view_details }
    if isNonVolunteer role_details.role_class role_details.role_title ∧
        keep_non_volunteer_roles = false then
      acc
    else
      let roles_dates :=
        if isNonVolunteer role_details.role_class role_details.role_title then acc.1
        else if role_status ≠ "Cancelled" then
          acc.1 ++ [(role_details.role_start, role_details.role_end.getD today)]
        else acc.1
      if statusKept statuses role_status = false then (roles_dates, acc.2)
      else (roles_dates, dictInsert acc.2 role_details.role_number role_details)

def rolesLoop (membership_num today : Int) (keep_non_volunteer_roles : Bool)
    (statuses : Option (List String)) :
    List RoleRow → List (Int × Int) × List (Int × MemberRoleCore) →
    Except String (List (Int × Int) × List (Int × MemberRoleCore))
  | [], acc => .ok acc
  | row :: rest, acc =>
    (rolesLoopStep membership_num today keep_non_volunteer_roles statuses acc row).bind
      (rolesLoop membership_num today keep_non_volunteer_roles statuses rest)

def get_roles_tab (membership_num : Int) (page : RolesPage)
    (keep_non_volunteer_roles : Bool) (statuses : Option (List String)) (today : Int) :
    Except ScraperError MemberRolesCollection :=
  if page.formAction = accessDeniedCN then
    .error (.permission (permissionMsgCN membership_num))
  else
    match rolesLoop membership_num today keep_non_volunteer_roles statuses page.rows
        ([], []) with
    | .error e => .error (.parseError e)
    | .ok (roles_dates, roles_data) =>
      match _membership_duration roles_dates with
      | none => .error .indexError
      | some membership_duration_years =>
        .ok ⟨roles_data, membership_duration_years⟩

example : get_roles_tab 1 ⟨"x", []⟩ false none 0 = .error ScraperError.indexError := by decide

theorem sortPairs_singleton (p : Int × Int) : sortPairs [p] = [p] := rfl

/-- C3 counterexample: the caller does not guard the no-roles case — on a
Roles page with zero rows (hence zero contributing date pairs) the duration
computation fails (IndexError from `sorted(dl)[0]`) instead of completing. -/
theorem roles_empty_counterexample :
    get_roles_tab 1 ⟨"x", []⟩ false none 0 = .error ScraperError.indexError ∧
    _membership_duration [] = none := by decide

/-- The role status a row will be assigned by the review-status extractor
(meaningful when the extractor succeeds on the row's status cell). -/
def rowStatusOf (row : RoleRow) : String :=
  match _extract_review_date row.status_cell with
  | .ok p => p.1
  | .error _ => ""

/-- Rows contributing a (start, end-or-today) pair to the duration
computation: non-"non-volunteer" and not cancelled. -/
def contributesDates (row : RoleRow) : Bool :=
  !(isNonVolunteer row.role_class row.role_title) && !(rowStatusOf row == "Cancelled")

theorem dictInsert_mem {κ α : Type} [DecidableEq κ] {d : List (κ × α)} {k : κ} {v : α} :
    ∀ e ∈ dictInsert d k v, e = (k, v) ∨ e ∈ d := by
  intro e he
  unfold dictInsert at he
  split at he
  · obtain ⟨e', he', hf⟩ := List.mem_map.mp he
    by_cases hk : e'.1 = k
    · rw [if_pos hk] at hf; exact Or.inl hf.symm
    · rw [if_neg hk] at hf; exact Or.inr (hf ▸ he')
  · rcases List.mem_append.mp he with h | h
    · exact Or.inr h
    · exact Or.inl (List.mem_singleton.mp h)

theorem dictInsert_key {κ α : Type} [DecidableEq κ] (d : List (κ × α)) (k : κ) (v : α) :
    ∃ e ∈ dictInsert d k v, e.1 = k := by
  unfold dictInsert
  split
  · next h =>
    obtain ⟨e, he, hk⟩ := List.any_eq_true.mp h
    refine ⟨(k, v), List.mem_map.mpr ⟨e, he, ?_⟩, rfl⟩
    rw [if_pos (of_decide_eq_true hk)]
  · exact ⟨(k, v), List.mem_append.mpr (Or.inr (List.mem_singleton.mpr rfl)), rfl⟩

theorem dictInsert_preserve {κ α : Type} [DecidableEq κ] {d : List (κ × α)} {k' : κ}
    (k : κ) (v : α) (h : ∃ e ∈ d, e.1 = k') : ∃ e ∈ dictInsert d k v, e.1 = k' := by
  obtain ⟨e, he, hk⟩ := h
  unfold dictInsert
  split
  · by_cases hek : e.1 = k
    · exact ⟨(k, v), List.mem_map.mpr ⟨e, he, by rw [if_pos hek]⟩, by rw [← hek, hk]⟩
    · exact ⟨e, List.mem_map.mpr ⟨e, he, by rw [if_neg hek]⟩, hk⟩
  · exact ⟨e, List.mem_append.mpr (Or.inl he), hk⟩

/-- Invariants of a successful pass over the role rows: the collected date
pairs are exactly those of the contributing (volunteer, non-cancelled) rows
in order; with the default keep flag no non-volunteer entry is ever added;
entry keys are preserved; and with keep and no status filter every row's
role number is present in the result. -/
theorem rolesLoop_ok_spec (n today : Int) (keep : Bool) (st : Option (List String)) :
    ∀ (rows : List RoleRow) (acc res : List (Int × Int) × List (Int × MemberRoleCore)),
    rolesLoop n today keep st rows acc = .ok res →
    (res.1 = acc.1 ++ (rows.filter contributesDates).map
        (fun r => (r.role_start, r.role_end.getD today))) ∧
    (keep = false → (∀ e ∈ acc.2, isNonVolunteer e.2.role_class e.2.role_title = false) →
      ∀ e ∈ res.2, isNonVolunteer e.2.role_class e.2.role_title = false) ∧
    (∀ k : Int, (∃ e ∈ acc.2, e.1 = k) → ∃ e ∈ res.2, e.1 = k) ∧
    (keep = true → st = none → ∀ r ∈ rows, ∃ e ∈ res.2, e.1 = r.role_number) := by
  intro rows
  induction rows with
  | nil =>
    intro acc res h
    rw [rolesLoop] at h
    injection h with h
    subst h
    exact ⟨by simp, fun _ hacc => hacc, fun k hk => hk,
      fun _ _ r hr => absurd hr (List.not_mem_nil r)⟩
  | cons row rest ih =>
    intro acc res h
    rw [rolesLoop] at h
    cases hrs : _extract_review_date row.status_cell with
    | error e =>
      rw [rolesLoopStep, hrs] at h
      exact absurd h (by simp [Except.map, Except.bind])
    | ok p =>
      obtain ⟨status, rd⟩ := p
      rw [rolesLoopStep, hrs] at h
      simp only [Except.map, Except.bind] at h
      have hstat : rowStatusOf row = status := by simp [rowStatusOf, hrs]
      by_cases hnv : isNonVolunteer row.role_class row.role_title
      · have hcontrib : contributesDates row = false := by
          simp [contributesDates, hnv]
        by_cases hkeep : keep = false
        · rw [if_pos ⟨hnv, hkeep⟩] at h
          obtain ⟨ih1, ih2, ih3, ih4⟩ := ih acc res h
          refine ⟨by rw [ih1, List.filter_cons, if_neg (by simp [hcontrib])], ih2, ih3, ?_⟩
          intro hk _ r hr
          rw [hk] at hkeep
          exact absurd hkeep (by simp)
        · rw [if_neg (fun hc => hkeep hc.2), if_pos hnv] at h
          by_cases hss : statusKept st status = false
          · rw [if_pos hss] at h
            obtain ⟨ih1, ih2, ih3, ih4⟩ := ih _ res h
            refine ⟨by rw [ih1, List.filter_cons, if_neg (by simp [hcontrib])],
              fun hk _ => absurd hk hkeep, ih3, ?_⟩
            intro _ hst
            subst hst
            exact absurd hss (by simp [statusKept])
          · rw [if_neg hss] at h
            obtain ⟨ih1, ih2, ih3, ih4⟩ := ih _ res h
            refine ⟨by rw [ih1, List.filter_cons, if_neg (by simp [hcontrib])],
              fun hk _ => absurd hk hkeep,
              fun k hk => ih3 k (dictInsert_preserve _ _ hk), ?_⟩
            intro hk hst r hr
            rcases List.mem_cons.mp hr with hr | hr
            · subst hr
              exact ih3 _ (dictInsert_key _ _ _)
            · exact ih4 hk hst r hr
      · have hnvf : isNonVolunteer row.role_class row.role_title = false := by
          revert hnv
          cases isNonVolunteer row.role_class row.role_title <;> simp
        rw [if_neg (fun hc => hnv hc.1), if_neg hnv] at h
        by_cases hcanc : status = "Cancelled"
        · have hcontrib : contributesDates row = false := by
            simp [contributesDates, hstat, hcanc]
          have hnc : ¬(status ≠ "Cancelled") := fun hne => hne hcanc
          rw [if_neg hnc] at h
          by_cases hss : statusKept st status = false
          · rw [if_pos hss] at h
            obtain ⟨ih1, ih2, ih3, ih4⟩ := ih _ res h
            refine ⟨by rw [ih1, List.filter_cons, if_neg (by simp [hcontrib])], ih2, ih3, ?_⟩
            intro _ hst
            subst hst
            exact absurd hss (by simp [statusKept])
          · rw [if_neg hss] at h
            obtain ⟨ih1, ih2, ih3, ih4⟩ := ih _ res h
            refine ⟨by rw [ih1, List.filter_cons, if_neg (by simp [hcontrib])], ?_,
              fun k hk => ih3 k (dictInsert_preserve _ _ hk), ?_⟩
            · intro hk hacc
              refine ih2 hk ?_
              intro e he
              rcases dictInsert_mem e he with he | he
              · rw [he]
                exact hnvf
              · exact hacc e he
            · intro hk hst r hr
              rcases List.mem_cons.mp hr with hr | hr
              · subst hr
                exact ih3 _ (dictInsert_key _ _ _)
              · exact ih4 hk hst r hr
        · have hcontrib : contributesDates row = true := by
            simp [contributesDates, hstat, hcanc, hnv]
          rw [if_pos hcanc] at h
          by_cases hss : statusKept st status = false
          · rw [if_pos hss] at h
            obtain ⟨ih1, ih2, ih3, ih4⟩ := ih _ res h
            refine ⟨?_, ih2, ih3, ?_⟩
            · rw [ih1, List.filter_cons, if_pos (by simp [hcontrib])]
              simp [List.append_assoc]
            · intro _ hst
              subst hst
              exact absurd hss (by simp [statusKept])
          · rw [if_neg hss] at h
            obtain ⟨ih1, ih2, ih3, ih4⟩ := ih _ res h
            refine ⟨?_, ?_, fun k hk => ih3 k (dictInsert_preserve _ _ hk), ?_⟩
            · rw [ih1, List.filter_cons, if_pos (by simp [hcontrib])]
              simp [List.append_assoc]
            · intro hk hacc
              refine ih2 hk ?_
              intro e he
              rcases dictInsert_mem e he with he | he
              · rw [he]
                exact hnvf
              · exact hacc e he
            · intro hk hst r hr
              rcases List.mem_cons.mp hr with hr | hr
              · subst hr
                exact ih3 _ (dictInsert_key _ _ _)
              · exact ih4 hk hst r hr

theorem get_roles_tab_ok_inv {n : Int} {page : RolesPage} {keep : Bool}
    {st : Option (List String)} {today : Int} {res : MemberRolesCollection}
    (h : get_roles_tab n page keep st today = .ok res) :
    page.formAction ≠ accessDeniedCN ∧
    ∃ dates data, rolesLoop n today keep st page.rows ([], []) = .ok (dates, data) ∧
      _membership_duration dates = some res.membership_duration ∧ res.roles = data := by
  rw [get_roles_tab] at h
  split at h
  · exact absurd h (by simp)
  · rename_i hfa
    split at h
    · exact absurd h (by simp)
    · rename_i dates data heq
      split at h
      · exact absurd h (by simp)
      · rename_i dur hdur
        injection h with h
        subst h
        exact ⟨hfa, dates, data, heq, by rw [hdur], rfl⟩

theorem rolesLoopStep_ok_of_extract {n today : Int} {keep : Bool}
    {st : Option (List String)} {acc : List (Int × Int) × List (Int × MemberRoleCore)}
    {row : RoleRow} (h : exceptIsOk (_extract_review_date row.status_cell) = true) :
    ∃ acc', rolesLoopStep n today keep st acc row = .ok acc' := by
  unfold rolesLoopStep
  cases he : _extract_review_date row.status_cell with
  | error e =>
    rw [he] at h
    exact absurd h (by simp [exceptIsOk])
  | ok p => exact ⟨_, rfl⟩

theorem rolesLoop_ok_of_extract (n today : Int) (keep : Bool) (st : Option (List String)) :
    ∀ (rows : List RoleRow) (acc : List (Int × Int) × List (Int × MemberRoleCore)),
    (∀ r ∈ rows, exceptIsOk (_extract_review_date r.status_cell) = true) →
    ∃ res, rolesLoop n today keep st rows acc = .ok res := by
  intro rows
  induction rows with
  | nil => intro acc _; exact ⟨acc, rfl⟩
  | cons row rest ih =>
    intro acc hex
    obtain ⟨acc', hstep⟩ := rolesLoopStep_ok_of_extract
      (hex row (List.mem_cons_self _ _))
    obtain ⟨res, hres⟩ := ih acc' (fun r hr => hex r (List.mem_cons_of_mem _ hr))
    refine ⟨res, ?_⟩
    rw [rolesLoop, hstep]
    exact hres

/-- C3 amended: the reducer yields a single (start, end) pair unchanged, but
the Roles-tab parser invokes the duration computation unconditionally and
does not guard the no-roles case: on a parsed Roles page all of whose rows
are non-volunteer or cancelled — a page with zero rows included — the empty
date list reaches the reducer and the computation fails with IndexError. -/
theorem roles_duration_amended :
    (∀ a b : Int, _reduce_date_list [(a, b)] = some [(a, b)]) ∧
    (∀ (n : Int) (page : RolesPage) (keep : Bool) (st : Option (List String)) (today : Int),
      page.formAction ≠ accessDeniedCN →
      (∀ r ∈ page.rows, exceptIsOk (_extract_review_date r.status_cell) = true) →
      (∀ r ∈ page.rows, isNonVolunteer r.role_class r.role_title = true ∨
        rowStatusOf r = "Cancelled") →
      get_roles_tab n page keep st today = .error .indexError) := by
  constructor
  · intro a b
    rw [_reduce_date_list]
    show reduceAux 1 [(a, b)] = some [(a, b)]
    simp only [reduceAux, sortPairs_singleton, scanPairs_cons_self]
    rfl
  · intro n page keep st today hfa hex hnc
    obtain ⟨res, hloop⟩ := rolesLoop_ok_of_extract n today keep st page.rows ([], []) hex
    obtain ⟨dates, data⟩ := res
    obtain ⟨h1, -, -, -⟩ := rolesLoop_ok_spec n today keep st page.rows _ _ hloop
    have hfilter : page.rows.filter contributesDates = [] := by
      rw [List.filter_eq_nil_iff]
      intro r hr
      rcases hnc r hr with h | h
      · simp [contributesDates, h]
      · simp [contributesDates, h]
    have h1' : dates = ([], ([] : List (Int × MemberRoleCore))).1 ++
        (page.rows.filter contributesDates).map
          (fun r => (r.role_start, r.role_end.getD today)) := h1
    rw [hfilter] at h1'
    simp only [List.map_nil, List.append_nil] at h1'
    subst h1'
    rw [get_roles_tab, if_neg hfa, hloop]
    rfl

theorem roles_duration_amended_witness :
    _reduce_date_list [((4 : Int), (9 : Int))] = some [(4, 9)] ∧
    get_roles_tab 2 ⟨"y", [⟨10, "Leader", "Scouter", "Loc", 1, some 5, "Cancelled", true⟩,
        ⟨11, "pvg", "x", "Loc", 1, none, "Full", true⟩]⟩ true (some ["Full"]) 5 =
      .error .indexError :=
  ⟨roles_duration_amended.1 4 9,
   roles_duration_amended.2 2
     ⟨"y", [⟨10, "Leader", "Scouter", "Loc", 1, some 5, "Cancelled", true⟩,
       ⟨11, "pvg", "x", "Loc", 1, none, "Full", true⟩]⟩ true (some ["Full"]) 5
     (by decide) (by decide) (by decide)⟩

/-- C4: a role is non-volunteer exactly when its role_class contains "helper"
case-insensitively or its lowercased title is in the fixed denylist; the
membership duration of any successful Roles parse is computed from exactly
the non-cancelled volunteer rows' (start, end-or-today) pairs; with
keep_non_volunteer_roles=False the returned collection contains no
non-volunteer role; with keep_non_volunteer_roles=True (and no status filter)
every row, non-volunteer ones included, appears in the returned collection. -/
theorem roles_nonvolunteer_spec :
    (∀ role_class role_title : String,
      isNonVolunteer role_class role_title =
        (containsSub (strLower role_class) "helper" ||
          NON_VOLUNTEER_TITLES.contains (strLower role_title))) ∧
    (∀ (n : Int) (page : RolesPage) (keep : Bool) (st : Option (List String)) (today : Int)
      (res : MemberRolesCollection), get_roles_tab n page keep st today = .ok res →
      _membership_duration ((page.rows.filter contributesDates).map
        fun r => (r.role_start, r.role_end.getD today)) = some res.membership_duration) ∧
    (∀ (n : Int) (page : RolesPage) (st : Option (List String)) (today : Int)
      (res : MemberRolesCollection), get_roles_tab n page false st today = .ok res →
      ∀ e ∈ res.roles, isNonVolunteer e.2.role_class e.2.role_title = false) ∧
    (∀ (n : Int) (page : RolesPage) (today : Int) (res : MemberRolesCollection),
      get_roles_tab n page true none today = .ok res →
      ∀ r ∈ page.rows, ∃ e ∈ res.roles, e.1 = r.role_number) := by
  refine ⟨fun _ _ => rfl, ?_, ?_, ?_⟩
  · intro n page keep st today res h
    obtain ⟨-, dates, data, hl, hd, -⟩ := get_roles_tab_ok_inv h
    obtain ⟨h1, -, -, -⟩ := rolesLoop_ok_spec n today keep st page.rows _ _ hl
    have hdx : dates = (page.rows.filter contributesDates).map
        (fun r => (r.role_start, r.role_end.getD today)) := by simpa using h1
    rw [← hdx]
    exact hd
  · intro n page st today res h
    obtain ⟨-, dates, data, hl, -, hroles⟩ := get_roles_tab_ok_inv h
    obtain ⟨-, h2, -, -⟩ := rolesLoop_ok_spec n today false st page.rows _ _ hl
    intro e he
    rw [hroles] at he
    exact h2 rfl (by simp) e he
  · intro n page today res h
    obtain ⟨-, dates, data, hl, -, hroles⟩ := get_roles_tab_ok_inv h
    obtain ⟨-, -, -, h4⟩ := rolesLoop_ok_spec n today true none page.rows _ _ hl
    intro r hr
    rw [hroles]
    exact h4 rfl rfl r hr

theorem roles_nonvolunteer_spec_witness :
    _membership_duration
        ((((⟨"x", [⟨10, "Leader", "Scouter", "Loc", 1, some 5, "Full", true⟩]⟩ :
            RolesPage)).rows.filter contributesDates).map
          fun r => (r.role_start, r.role_end.getD 7)) =
      some ((MemberRolesCollection.mk
        [(10, ⟨10, 9, "Leader", "Scouter", "Loc", 1, some 5, "Full", none, true⟩)]
        (((5 : Int) : ℚ) / (3652425 / 10000 : ℚ))).membership_duration) :=
  roles_nonvolunteer_spec.2.1 9 ⟨"x", [⟨10, "Leader", "Scouter", "Loc", 1, some 5, "Full", true⟩]⟩
    false none 7
    ⟨[(10, ⟨10, 9, "Leader", "Scouter", "Loc", 1, some 5, "Full", none, true⟩)],
      ((5 : Int) : ℚ) / (3652425 / 10000 : ℚ)⟩ rfl

/-- The first component (the collected date pairs) of the row loop does not
depend on the keep flag or the status filter. -/
theorem rolesLoop_fst_indep (n today : Int) (k1 k2 : Bool) (s1 s2 : Option (List String)) :
    ∀ (rows : List RoleRow) (acc1 acc2 : List (Int × Int) × List (Int × MemberRoleCore)),
    acc1.1 = acc2.1 →
    (rolesLoop n today k1 s1 rows acc1).map Prod.fst =
      (rolesLoop n today k2 s2 rows acc2).map Prod.fst := by
  intro rows
  induction rows with
  | nil =>
    intro acc1 acc2 hacc
    simp [rolesLoop, Except.map, hacc]
  | cons row rest ih =>
    intro acc1 acc2 hacc
    rw [rolesLoop, rolesLoop]
    cases hrs : _extract_review_date row.status_cell with
    | error e =>
      rw [rolesLoopStep, rolesLoopStep, hrs]
      rfl
    | ok p =>
      obtain ⟨status, rd⟩ := p
      rw [rolesLoopStep, rolesLoopStep, hrs]
      simp only [Except.map, Except.bind]
      apply ih
      repeat' split
      all_goals simp_all

/-- C10: membership_duration is independent of both mode flags — two runs of
the Roles-tab parser on the same page and membership number differing only in
keep_non_volunteer_roles and/or the statuses filter produce identical
membership_duration outcomes (the statuses filter acts after date-pair
collection, and non-volunteer roles never contribute dates even when kept). -/
theorem roles_duration_flag_independent (n : Int) (page : RolesPage)
    (k1 k2 : Bool) (s1 s2 : Option (List String)) (today : Int) :
    (get_roles_tab n page k1 s1 today).map (fun c => c.membership_duration) =
      (get_roles_tab n page k2 s2 today).map (fun c => c.membership_duration) := by
  rw [get_roles_tab, get_roles_tab]
  by_cases hfa : page.formAction = accessDeniedCN
  · rw [if_pos hfa, if_pos hfa]
  · rw [if_neg hfa, if_neg hfa]
    have h := rolesLoop_fst_indep n today k1 k2 s1 s2 page.rows ([], []) ([], []) rfl
    cases h1 : rolesLoop n today k1 s1 page.rows ([], []) with
    | error e =>
      rw [h1] at h
      cases h2 : rolesLoop n today k2 s2 page.rows ([], []) with
      | error e2 =>
        rw [h2] at h
        simp only [Except.map] at h
        injection h with h
        subst h
        rfl
      | ok p2 =>
        rw [h2] at h
        exact absurd h (by simp [Except.map])
    | ok p1 =>
      obtain ⟨d1, data1⟩ := p1
      cases h2 : rolesLoop n today k2 s2 page.rows ([], []) with
      | error e2 =>
        rw [h1, h2] at h
        exact absurd h (by simp [Except.map])
      | ok p2 =>
        obtain ⟨d2, data2⟩ := p2
        rw [h1, h2] at h
        simp only [Except.map] at h
        injection h with h
        rw [← h]
        cases hd : _membership_duration d1 with
        | none => simp [hd, Except.map]
        | some dur => simp [hd, Except.map]

/-! ## Permits tab (`get_permits_tab`, member.py lines 362-403)

The source performs no denied-access sentinel check on this tab: rows are
processed directly.
-/

structure PermitRow where
  permit_type : String
  category : String
  type : String
  restrictions : String
  expires_cell : String
  status_class : Option String
deriving DecidableEq, Repr

structure PermitsPage where
  formAction : String
  rows : List PermitRow
deriving DecidableEq, Repr

structure MemberPermit where
  membership_number : Int
  permit_type : String
  category : String
  type : String
  restrictions : String
  expires : Option Date
  status : Option String
deriving DecidableEq, Repr

/-- The per-row accumulation loop (`for row in rows: ... .append(...)`). -/
def mapMList {β γ : Type} (f : β → Except ScraperError γ) :
    List β → Except ScraperError (List γ)
  | [] => .ok []
  | b :: rest => (f b).bind fun x => (mapMList f rest).map fun xs => x :: xs

def foldlMList {γ β : Type} (step : γ → β → Except ScraperError γ) :
    γ → List β → Except ScraperError γ
  | init, [] => .ok init
  | init, b :: rest => (step init b).bind fun d => foldlMList step d rest

def permitOfRow (membership_num : Int) (row : PermitRow) :
    Except ScraperError MemberPermit :=
  (Except.mapError ScraperError.parseError
    (if row.expires_cell ≠ "Revoked" then parse_date row.expires_cell else .ok none)).map
    fun expires =>
      { membership_number := membership_num, permit_type := row.permit_type,
        category := row.category, type := row.type, restrictions := row.restrictions,
        expires := expires, status := row.status_class }

def get_permits_tab (membership_num : Int) (page : PermitsPage) :
    Except ScraperError (List MemberPermit) :=
  mapMList (permitOfRow membership_num) page.rows

/-! ## Awards tab (`get_awards_tab`, member.py lines 492-534): has the check. -/

structure AwardRow where
  award_type : String
  location : String
  date_cell : String
deriving DecidableEq, Repr

structure AwardsPage where
  formAction : String
  rows : List AwardRow
deriving DecidableEq, Repr

structure MemberAward where
  membership_number : Int
  type : String
  location : Option String
  date : Option Date
deriving DecidableEq, Repr

def awardOfRow (membership_num : Int) (row : AwardRow) : Except ScraperError MemberAward :=
  (Except.mapError ScraperError.parseError (parse_date row.date_cell)).map fun date =>
    { membership_number := membership_num, type := row.award_type,
      location := if row.location = "" then none else some row.location, date := date }

def get_awards_tab (membership_num : Int) (page : AwardsPage) :
    Except ScraperError (List MemberAward) :=
  if page.formAction = accessDeniedCN then
    .error (.permission (permissionMsgCN membership_num))
  else
    mapMList (awardOfRow membership_num) page.rows

/-! ## Disclosures tab (`get_disclosures_tab`, member.py lines 536-591): has the check. -/

structure DisclosureRow where
  country : String
  provider : String
  type : String
  number : String
  issuer : String
  issue_date_cell : String
  status : String
  expiry_date_cell : String
deriving DecidableEq, Repr

structure DisclosuresPage where
  formAction : String
  rows : List DisclosureRow
deriving DecidableEq, Repr

structure MemberDisclosure where
  membership_number : Int
  country : Option String
  provider : String
  type : String
  number : Option String
  issuer : Option String
  issue_date : Option Date
  status : String
  expiry_date : Option Date
deriving DecidableEq, Repr

def disclosureOfRow (membership_num : Int) (row : DisclosureRow) :
    Except ScraperError MemberDisclosure :=
  (Except.mapError ScraperError.parseError (parse_date row.issue_date_cell)).bind
    fun issue_date =>
      (Except.mapError ScraperError.parseError (parse_date row.expiry_date_cell)).map
        fun expiry_date =>
          { membership_number := membership_num,
            country := if row.country = "" then none else some row.country,
            provider := row.provider, type := row.type,
            number := if row.number = "" then none else some row.number,
            issuer := if row.issuer = "" then none else some row.issuer,
            issue_date := issue_date, status := row.status, expiry_date := expiry_date }

def get_disclosures_tab (membership_num : Int) (page : DisclosuresPage) :
    Except ScraperError (List MemberDisclosure) :=
  if page.formAction = accessDeniedCN then
    .error (.permission (permissionMsgCN membership_num))
  else
    mapMList (disclosureOfRow membership_num) page.rows

/-! ## Personal tab (`get_personal_tab`, member.py lines 166-247): has the check.

The xpath anchors are abstracted as page fields holding the anchored cells'
text; the title gives the name words after ("Scout", "-", membership_num).
-/

structure PersonalPage where
  formAction : String
  title_names : List String
  full_name : String
  known_as : String
  join_date_cell : String
  sex : String
  address_cell : String
  phone : String
  email : String
deriving DecidableEq, Repr

structure MemberDetails where
  membership_number : Int
  forenames : Option String
  surname : String
  name : String
  known_as : String
  join_date : Option Date
  sex : String
  address : _AddressData
  main_phone : String
  main_email : String
deriving DecidableEq, Repr

def get_personal_tab (membership_num : Int) (page : PersonalPage) :
    Except ScraperError MemberDetails :=
  if page.formAction = accessDeniedCN then
    .error (.permission (permissionMsgCN membership_num))
  else
    (if page.join_date_cell ≠ "Unknown" then
      Except.mapError ScraperError.parseError (parse_date page.join_date_cell)
    else .ok none).bind fun join_date =>
      (Except.mapError (fun _ => ScraperError.parseError "ValueError")
        (_process_address page.address_cell)).map fun address =>
        { membership_number := membership_num,
          forenames := page.title_names.head?,
          surname := String.intercalate " " (page.title_names.drop 1),
          name := page.full_name, known_as := page.known_as,
          join_date := join_date, sex := page.sex, address := address,
          main_phone := page.phone, main_email := page.email }

/-! ## Role-detail popup (`get_roles_detail`, member.py lines 594-746)

Has the check, against the distinct "Invalid=Access" sentinel, performed
after locating the form but before reading any field.  Form fields are the
popup's name → value mapping.
-/

def references_codes : List (String × String) :=
  [("NC", "Not Complete"), ("NR", "Not Required"), ("RR", "References Requested"),
   ("S", "References Satisfactory"), ("U", "References Unsatisfactory")]

structure RolePopupPage where
  formAction : String
  fields : List (String × String)
deriving DecidableEq, Repr

structure MemberRolePopupDetails where
  role_number : Int
  membership_number : Nat
  role_title : Option String
  role_start : Option Date
  role_status : Option String
  review_date : Option Date
  references : Option String
deriving DecidableEq, Repr

def get_roles_detail (role_number : Int) (page : RolePopupPage) :
    Except ScraperError MemberRolePopupDetails :=
  if page.formAction = accessDeniedRole then
    .error (.permission (permissionMsgRole role_number))
  else
    (match (lookupAssoc page.fields "ctl00$workarea$txt_p1_memberno").bind strToNat with
      | some v => Except.ok v
      | none => Except.error (ScraperError.parseError "invalid literal for int()")).bind
      fun memberno =>
      (Except.mapError ScraperError.parseError
        (parseOptDate (lookupAssoc page.fields "ctl00$workarea$txt_p1_startdate"))).bind
        fun role_start =>
        (Except.mapError ScraperError.parseError
          (parseOptDate (lookupAssoc page.fields "ctl00$workarea$txt_p2_review"))).map
          fun review_date =>
          { role_number := role_number, membership_number := memberno,
            role_title := lookupAssoc page.fields "ctl00$workarea$txt_p1_alt_title",
            role_start := role_start,
            role_status := lookupAssoc page.fields "ctl00$workarea$txt_p2_status",
            review_date := review_date,
            references :=
              match lookupAssoc page.fields "ctl00$workarea$cbo_p2_referee_status" with
              | some c => some ((lookupAssoc references_codes c).getD c)
              | none => none }

/-! ## Training tab (`get_training_tab` lines 405-490 and
`_compile_ongoing_learning` lines 830-847)

The source performs no denied-access sentinel check on this tab.  PLP module
rows are modelled post-extraction (code and validated date); each ongoing
learning table row carries its data-ng_code attribute and its id-keyed cell
texts, exactly what `_compile_ongoing_learning` reads.
-/

structure TrainingModule where
  code : String
  validated_date : Option Date
deriving DecidableEq, Repr

structure OglRow where
  data_ng_code : String
  cells : List (String × String)
deriving DecidableEq, Repr

structure TrainingPage where
  formAction : String
  plps : List (Int × List TrainingModule)
  ogl_rows : List OglRow
deriving DecidableEq, Repr

def mogl_map : List (String × String) :=
  [("SA", "safety"), ("SG", "safeguarding"), ("FA", "first_aid")]

def mogl_types : List String := ["gdpr", "safety", "safeguarding", "first_aid"]

abbrev OglEntry := List (String × Option Date)

/-- Chronological order on calendar dates (lexicographic year, month, day),
as Python compares `datetime.date` values. -/
def dateLe (a b : Date) : Prop :=
  a.year < b.year ∨ (a.year = b.year ∧
    (a.month < b.month ∨ (a.month = b.month ∧ a.day ≤ b.day)))

instance : DecidableRel dateLe := fun a b => by unfold dateLe; infer_instance

instance : IsTotal Date dateLe := ⟨by intro a b; unfold dateLe; omega⟩

instance : IsTrans Date dateLe := ⟨by intro a b c; unfold dateLe; omega⟩

/-- The non-null GDPR validated dates across all PLPs. -/
def gdprDatesOf (training_plps : List (Int × List TrainingModule)) : List Date :=
  ((((training_plps.map Prod.snd).flatten.filter fun m => m.code = "GDPR").map
    fun m => m.validated_date).filterMap id)

/-- One iteration over the `//tr[@data-ng_code]` rows (member.py lines
837-843): `mogl_map[...]` raises KeyError on an unknown code. -/
def oglStep (d : List (String × OglEntry)) (row : OglRow) :
    Except ScraperError (List (String × OglEntry)) :=
  (match lookupAssoc mogl_map row.data_ng_code with
    | some k => Except.ok k
    | none => Except.error (ScraperError.keyError row.data_ng_code)).bind fun key =>
    (Except.mapError ScraperError.parseError
      (parseOptDate (lookupAssoc row.cells "tdLastComplete"))).bind fun completed =>
      (Except.mapError ScraperError.parseError
        (parseOptDate (lookupAssoc row.cells "tdRenewal"))).map fun renewal =>
        dictInsert d key [("completed_date", completed), ("renewal_date", renewal)]

/-- The initial ongoing-learning dict: latest GDPR validated date across all
PLPs (`next(reversed(sorted(...)), None)` = last of the ascending sort). -/
def oglInit (training_plps : List (Int × List TrainingModule)) :
    List (String × OglEntry) :=
  [("gdpr", [("completed_date",
    (List.insertionSort dateLe (gdprDatesOf training_plps)).getLast?)])]

def _compile_ongoing_learning (training_plps : List (Int × List TrainingModule))
    (ogl_rows : List OglRow) : Except ScraperError (List (String × OglEntry)) :=
  (foldlMList oglStep (oglInit training_plps) ogl_rows).map
    fun d => mogl_types.map fun t => (t, (lookupAssoc d t).getD [])

structure MemberTrainingData where
  plps : List (Int × List TrainingModule)
  mandatory : List (String × OglEntry)
deriving DecidableEq, Repr

def get_training_tab (membership_num : Int) (page : TrainingPage) :
    Except ScraperError MemberTrainingData :=
  (_compile_ongoing_learning page.plps page.ogl_rows).map fun training_ogl =>
    { plps := page.plps, mandatory := training_ogl }

def isPermissionError {α : Type} : Except ScraperError α → Bool
  | .error (.permission _) => true
  | _ => false

theorem permitOfRow_no_permission (n : Int) (r : PermitRow) :
    isPermissionError (permitOfRow n r) = false := by
  unfold permitOfRow
  cases h : (if r.expires_cell ≠ "Revoked" then parse_date r.expires_cell else .ok none) with
  | error e => simp [h, Except.mapError, Except.map, isPermissionError]
  | ok v => simp [h, Except.mapError, Except.map, isPermissionError]

theorem isPermissionError_error_congr (α β : Type) (e : ScraperError) :
    isPermissionError (Except.error e : Except ScraperError α) =
    isPermissionError (Except.error e : Except ScraperError β) := by
  cases e <;> rfl

theorem mapM_no_permission {β γ : Type} (f : β → Except ScraperError γ)
    (hf : ∀ b, isPermissionError (f b) = false) :
    ∀ rows : List β, isPermissionError (mapMList f rows) = false := by
  intro rows
  induction rows with
  | nil => rfl
  | cons r rest ih =>
    rw [mapMList]
    cases hr : f r with
    | error e =>
      have hr' := hf r
      rw [hr] at hr'
      simp only [Except.bind]
      exact (isPermissionError_error_congr _ _ e).trans hr'
    | ok x =>
      cases hrest : mapMList f rest with
      | error e2 =>
        rw [hrest] at ih
        simp only [Except.bind, Except.map]
        exact ih
      | ok xs => rfl

theorem oglStep_no_permission (d : List (String × OglEntry)) (row : OglRow) :
    isPermissionError (oglStep d row) = false := by
  unfold oglStep
  cases h1 : lookupAssoc mogl_map row.data_ng_code with
  | none => simp [h1, Except.bind, isPermissionError]
  | some k =>
    cases h2 : parseOptDate (lookupAssoc row.cells "tdLastComplete") with
    | error e => simp [h1, h2, Except.bind, Except.mapError, Except.map, isPermissionError]
    | ok c =>
      cases h3 : parseOptDate (lookupAssoc row.cells "tdRenewal") with
      | error e => simp [h1, h2, h3, Except.bind, Except.mapError, Except.map, isPermissionError]
      | ok r => simp [h1, h2, h3, Except.bind, Except.mapError, Except.map, isPermissionError]

theorem foldlM_no_permission {γ : Type} (step : γ → OglRow → Except ScraperError γ)
    (hstep : ∀ d row, isPermissionError (step d row) = false) :
    ∀ (rows : List OglRow) (init : γ),
    isPermissionError (foldlMList step init rows) = false := by
  intro rows
  induction rows with
  | nil => intro init; rfl
  | cons r rest ih =>
    intro init
    rw [foldlMList]
    cases hr : step init r with
    | error e =>
      have hr' := hstep init r
      rw [hr] at hr'
      exact hr'
    | ok d' =>
      exact ih d'

theorem compile_ogl_no_permission (plps : List (Int × List TrainingModule))
    (rows : List OglRow) :
    isPermissionError (_compile_ongoing_learning plps rows) = false := by
  unfold _compile_ongoing_learning
  cases hf : foldlMList oglStep (oglInit plps) rows with
  | error e =>
    have hnp := foldlM_no_permission oglStep oglStep_no_permission rows (oglInit plps)
    rw [hf] at hnp
    simp only [Except.map]
    exact (isPermissionError_error_congr _ _ e).trans hnp
  | ok d => rfl

/-- C2 counterexample: the Permits tab parser performs no denied-access
sentinel check — on a page whose form action equals the sentinel path it
returns a normal (empty) result instead of raising PermissionError. -/
theorem permission_sentinel_counterexample :
    get_permits_tab 123 ⟨accessDeniedCN, []⟩ = .ok [] ∧
    get_training_tab 123 ⟨accessDeniedCN, [], []⟩ = .ok ⟨[], [("gdpr",
      [("completed_date", none)]), ("safety", []), ("safeguarding", []), ("first_aid", [])]⟩ := by
  constructor
  · rfl
  · rfl

/-- C2 amended: the Personal, Roles, Awards and Disclosures tab parsers and
the Role-Detail popup parser raise PermissionError naming the requested
identifier when the fetched page's form action equals their denied-access
sentinel, before any field is extracted; the Permits and Training tab parsers
perform no such check and never produce a PermissionError. -/
theorem permission_sentinel_amended :
    (∀ (n : Int) (page : PersonalPage), page.formAction = accessDeniedCN →
      get_personal_tab n page = .error (.permission (permissionMsgCN n))) ∧
    (∀ (n : Int) (page : RolesPage) (keep : Bool) (st : Option (List String)) (today : Int),
      page.formAction = accessDeniedCN →
      get_roles_tab n page keep st today = .error (.permission (permissionMsgCN n))) ∧
    (∀ (n : Int) (page : AwardsPage), page.formAction = accessDeniedCN →
      get_awards_tab n page = .error (.permission (permissionMsgCN n))) ∧
    (∀ (n : Int) (page : DisclosuresPage), page.formAction = accessDeniedCN →
      get_disclosures_tab n page = .error (.permission (permissionMsgCN n))) ∧
    (∀ (rn : Int) (page : RolePopupPage), page.formAction = accessDeniedRole →
      get_roles_detail rn page = .error (.permission (permissionMsgRole rn))) ∧
    (∀ (n : Int) (page : PermitsPage),
      isPermissionError (get_permits_tab n page) = false) ∧
    (∀ (n : Int) (page : TrainingPage),
      isPermissionError (get_training_tab n page) = false) := by
  refine ⟨?_, ?_, ?_, ?_, ?_, ?_, ?_⟩
  · intro n page h
    rw [get_personal_tab, if_pos h]
  · intro n page keep st today h
    rw [get_roles_tab, if_pos h]
  · intro n page h
    rw [get_awards_tab, if_pos h]
  · intro n page h
    rw [get_disclosures_tab, if_pos h]
  · intro rn page h
    rw [get_roles_detail, if_pos h]
  · intro n page
    exact mapM_no_permission _ (permitOfRow_no_permission n) page.rows
  · intro n page
    unfold get_training_tab
    cases hc : _compile_ongoing_learning page.plps page.ogl_rows with
    | error e =>
      have hnp := compile_ogl_no_permission page.plps page.ogl_rows
      rw [hc] at hnp
      simp only [Except.map]
      exact (isPermissionError_error_congr _ _ e).trans hnp
    | ok d => rfl

theorem permission_sentinel_amended_witness :
    get_roles_tab 7 ⟨accessDeniedCN, []⟩ false none 0 =
      .error (.permission (permissionMsgCN 7)) :=
  permission_sentinel_amended.2.1 7 ⟨accessDeniedCN, []⟩ false none 0 rfl

theorem getLastOpt_mem : ∀ (l : List Date) (m : Date), l.getLast? = some m → m ∈ l := by
  intro l
  induction l with
  | nil => intro m hm; exact absurd hm (by simp)
  | cons a t ih =>
    intro m hm
    cases t with
    | nil =>
      simp only [List.getLast?_singleton, Option.some.injEq] at hm
      rw [hm]
      exact List.mem_singleton.mpr rfl
    | cons b t' =>
      rw [List.getLast?_cons_cons] at hm
      exact List.mem_cons_of_mem a (ih m hm)

theorem getLastOpt_none : ∀ (l : List Date), l.getLast? = none → l = [] := by
  intro l
  induction l with
  | nil => intro _; rfl
  | cons a t ih =>
    intro hm
    cases t with
    | nil => simp at hm
    | cons b t' =>
      rw [List.getLast?_cons_cons] at hm
      exact absurd (ih hm) (by simp)

theorem sorted_rel_getLast : ∀ (l : List Date), l.Sorted dateLe →
    ∀ m, l.getLast? = some m → ∀ x ∈ l, dateLe x m := by
  intro l
  induction l with
  | nil => intro _ m hm; exact absurd hm (by simp)
  | cons a t ih =>
    intro hs m hm x hx
    cases t with
    | nil =>
      simp only [List.getLast?_singleton, Option.some.injEq] at hm
      rcases List.mem_singleton.mp hx with hx
      subst hm
      subst hx
      rcases total_of dateLe x x with h | h <;> exact h
    | cons b t' =>
      rw [List.getLast?_cons_cons] at hm
      rcases List.mem_cons.mp hx with hx | hx
      · have hmem : m ∈ b :: t' := getLastOpt_mem _ m hm
        rw [hx]
        exact (List.sorted_cons.mp hs).1 m hmem
      · exact ih (List.sorted_cons.mp hs).2 m hm x hx

theorem mapOverwrite_lookup_self {α : Type} (k : String) (v : α) :
    ∀ d : List (String × α), d.any (fun e => e.1 = k) = true →
    lookupAssoc (d.map fun e => if e.1 = k then (k, v) else e) k = some v := by
  intro d
  induction d with
  | nil => simp
  | cons a t ih =>
    intro hany
    rw [List.map_cons]
    by_cases hak : a.1 = k
    · rw [if_pos hak, lookupAssoc, if_pos rfl]
    · rw [if_neg hak, lookupAssoc, if_neg hak]
      apply ih
      rcases List.any_eq_true.mp hany with ⟨e, he, hk⟩
      rcases List.mem_cons.mp he with he | he
      · rw [he] at hk
        exact absurd (of_decide_eq_true hk) hak
      · exact List.any_eq_true.mpr ⟨e, he, hk⟩

theorem mapOverwrite_lookup_other {α : Type} (k k' : String) (v : α) (hne : k' ≠ k) :
    ∀ t : List (String × α),
    lookupAssoc (t.map fun e => if e.1 = k then (k, v) else e) k' = lookupAssoc t k' := by
  intro t
  induction t with
  | nil => rfl
  | cons a t ih =>
    rw [List.map_cons]
    by_cases hak : a.1 = k
    · rw [if_pos hak, lookupAssoc, lookupAssoc]
      have h1 : ¬((k, v).1 = k') := fun hc => hne (by rw [← hc])
      have h2 : ¬(a.1 = k') := by rw [hak]; exact fun hc => hne (by rw [← hc])
      rw [if_neg h1, if_neg h2]
      exact ih
    · rw [if_neg hak, lookupAssoc, lookupAssoc]
      by_cases hak' : a.1 = k'
      · rw [if_pos hak', if_pos hak']
      · rw [if_neg hak', if_neg hak']
        exact ih

theorem appendSingle_lookup_self {α : Type} (k : String) (v : α) :
    ∀ d : List (String × α), d.any (fun e => e.1 = k) = false →
    lookupAssoc (d ++ [(k, v)]) k = some v := by
  intro d
  induction d with
  | nil => intro _; rw [List.nil_append, lookupAssoc, if_pos rfl]
  | cons a t ih =>
    intro hany
    rw [List.cons_append, lookupAssoc]
    rw [List.any_cons, Bool.or_eq_false_iff] at hany
    rw [if_neg (by simpa using hany.1)]
    exact ih hany.2

theorem appendSingle_lookup_other {α : Type} (k k' : String) (v : α) (hne : k' ≠ k) :
    ∀ d : List (String × α), lookupAssoc (d ++ [(k, v)]) k' = lookupAssoc d k' := by
  intro d
  induction d with
  | nil =>
    have h1 : ¬((k, v).1 = k') := fun hc => hne hc.symm
    simp only [List.nil_append, lookupAssoc]
    rw [if_neg h1]
  | cons a t ih =>
    rw [List.cons_append, lookupAssoc, lookupAssoc]
    by_cases hak' : a.1 = k'
    · rw [if_pos hak', if_pos hak']
    · rw [if_neg hak', if_neg hak']
      exact ih

theorem dictInsert_lookup_self {α : Type} (d : List (String × α)) (k : String) (v : α) :
    lookupAssoc (dictInsert d k v) k = some v := by
  unfold dictInsert
  by_cases hany : d.any (fun e => e.1 = k) = true
  · rw [if_pos hany]
    exact mapOverwrite_lookup_self k v d hany
  · rw [if_neg hany]
    exact appendSingle_lookup_self k v d (Bool.eq_false_iff.mpr hany)

theorem dictInsert_lookup_other {α : Type} (d : List (String × α)) (k k' : String)
    (v : α) (hne : k' ≠ k) :
    lookupAssoc (dictInsert d k v) k' = lookupAssoc d k' := by
  unfold dictInsert
  by_cases hany : d.any (fun e => e.1 = k) = true
  · rw [if_pos hany]
    exact mapOverwrite_lookup_other k k' v hne d
  · rw [if_neg hany]
    exact appendSingle_lookup_other k k' v hne d

theorem oglStep_ok_inv {d d' : List (String × OglEntry)} {row : OglRow}
    (h : oglStep d row = .ok d') :
    ∃ key c r, lookupAssoc mogl_map row.data_ng_code = some key ∧
      d' = dictInsert d key [("completed_date", c), ("renewal_date", r)] := by
  unfold oglStep at h
  cases h1 : lookupAssoc mogl_map row.data_ng_code with
  | none => simp [h1, Except.bind] at h
  | some k =>
    rw [h1] at h
    cases h2 : parseOptDate (lookupAssoc row.cells "tdLastComplete") with
    | error e => simp [h2, Except.bind, Except.mapError, Except.map] at h
    | ok c =>
      rw [h2] at h
      cases h3 : parseOptDate (lookupAssoc row.cells "tdRenewal") with
      | error e => simp [h3, Except.bind, Except.mapError, Except.map] at h
      | ok r =>
        rw [h3] at h
        refine ⟨k, c, r, rfl, ?_⟩
        have h' := h
        simp only [Except.bind, Except.mapError, Except.map] at h'
        exact (Except.ok.inj h').symm

theorem mogl_map_values {c k : String} (h : lookupAssoc mogl_map c = some k) :
    k = "safety" ∨ k = "safeguarding" ∨ k = "first_aid" := by
  simp only [mogl_map, lookupAssoc] at h
  split at h
  · exact Or.inl (Option.some.inj h).symm
  · split at h
    · exact Or.inr (Or.inl (Option.some.inj h).symm)
    · split at h
      · exact Or.inr (Or.inr (Option.some.inj h).symm)
      · exact absurd h (by simp)

theorem mogl_key_ne_gdpr {c k : String} (h : lookupAssoc mogl_map c = some k) :
    k ≠ "gdpr" := by
  rcases mogl_map_values h with h' | h' | h' <;> (subst h'; decide)

theorem foldlM_lookup_untouched (t : String) :
    ∀ (rows : List OglRow) (d0 d1 : List (String × OglEntry)),
    (∀ row ∈ rows, lookupAssoc mogl_map row.data_ng_code ≠ some t) →
    foldlMList oglStep d0 rows = .ok d1 →
    lookupAssoc d1 t = lookupAssoc d0 t := by
  intro rows
  induction rows with
  | nil =>
    intro d0 d1 _ h
    injection h with h
    rw [h]
  | cons r rest ih =>
    intro d0 d1 hr h
    rw [foldlMList] at h
    cases hs : oglStep d0 r with
    | error e => simp [hs, Except.bind] at h
    | ok dmid =>
      rw [hs] at h
      simp only [Except.bind] at h
      obtain ⟨key, c, rr, hkey, hdm⟩ := oglStep_ok_inv hs
      have hne : t ≠ key := by
        intro hc
        subst hc
        exact hr r (List.mem_cons_self _ _) hkey
      have hmid : lookupAssoc dmid t = lookupAssoc d0 t := by
        rw [hdm]
        exact dictInsert_lookup_other _ _ _ _ hne
      rw [ih dmid d1 (fun q hq => hr q (List.mem_cons_of_mem _ hq)) h, hmid]

theorem foldlM_keeps_pair (t : String) :
    ∀ (rows : List OglRow) (d0 d1 : List (String × OglEntry)),
    foldlMList oglStep d0 rows = .ok d1 →
    (∃ c r, lookupAssoc d0 t = some [("completed_date", c), ("renewal_date", r)]) →
    ∃ c r, lookupAssoc d1 t = some [("completed_date", c), ("renewal_date", r)] := by
  intro rows
  induction rows with
  | nil =>
    intro d0 d1 h hp
    injection h with h
    rw [← h]
    exact hp
  | cons r rest ih =>
    intro d0 d1 h hp
    rw [foldlMList] at h
    cases hs : oglStep d0 r with
    | error e => simp [hs, Except.bind] at h
    | ok dmid =>
      rw [hs] at h
      simp only [Except.bind] at h
      obtain ⟨key, c, rr, hkey, hdm⟩ := oglStep_ok_inv hs
      apply ih dmid d1 h
      by_cases hkt : t = key
      · subst hkt
        rw [hdm, dictInsert_lookup_self]
        exact ⟨c, rr, rfl⟩
      · rw [hdm, dictInsert_lookup_other _ _ _ _ hkt]
        exact hp

theorem foldlM_present (t : String) :
    ∀ (rows : List OglRow) (d0 d1 : List (String × OglEntry)),
    foldlMList oglStep d0 rows = .ok d1 →
    ∀ row ∈ rows, lookupAssoc mogl_map row.data_ng_code = some t →
    ∃ c r, lookupAssoc d1 t = some [("completed_date", c), ("renewal_date", r)] := by
  intro rows
  induction rows with
  | nil => intro d0 d1 _ row hrow; exact absurd hrow (List.not_mem_nil row)
  | cons r rest ih =>
    intro d0 d1 h row hrow hcode
    rw [foldlMList] at h
    cases hs : oglStep d0 r with
    | error e => simp [hs, Except.bind] at h
    | ok dmid =>
      rw [hs] at h
      simp only [Except.bind] at h
      obtain ⟨key, c, rr, hkey, hdm⟩ := oglStep_ok_inv hs
      rcases List.mem_cons.mp hrow with hrw | hrw
      · subst hrw
        have hkt : key = t := Option.some.inj (hkey.symm.trans hcode)
        subst hkt
        apply foldlM_keeps_pair key rest dmid d1 h
        rw [hdm, dictInsert_lookup_self]
        exact ⟨c, rr, rfl⟩
      · exact ih dmid d1 h row hrw hcode

theorem compile_ogl_ok_inv {plps : List (Int × List TrainingModule)} {rows : List OglRow}
    {res : List (String × OglEntry)}
    (h : _compile_ongoing_learning plps rows = .ok res) :
    ∃ d, foldlMList oglStep (oglInit plps) rows = .ok d ∧
      res = mogl_types.map fun t => (t, (lookupAssoc d t).getD []) := by
  unfold _compile_ongoing_learning at h
  cases hf : foldlMList oglStep (oglInit plps) rows with
  | error e => simp [hf, Except.map] at h
  | ok d =>
    rw [hf] at h
    simp only [Except.map] at h
    exact ⟨d, rfl, (Except.ok.inj h).symm⟩

/-- C9: the compiled ongoing mandatory learning mapping contains exactly the
four types gdpr, safety, safeguarding, first_aid; the gdpr completed_date is
the latest non-null validated date among GDPR-coded modules across all PLPs
(None when there are none); a type with no dedicated data-ng_code table row
still appears with empty sub-fields, and a type with such a row carries the
completed/renewal dates read from it. -/
theorem ongoing_learning_spec :
    ∀ (plps : List (Int × List TrainingModule)) (rows : List OglRow)
      (res : List (String × OglEntry)),
    _compile_ongoing_learning plps rows = .ok res →
    (res.map Prod.fst = mogl_types) ∧
    (∃ d : Option Date, lookupAssoc res "gdpr" = some [("completed_date", d)] ∧
      ((d = none ∧ gdprDatesOf plps = []) ∨
        (∃ m, d = some m ∧ m ∈ gdprDatesOf plps ∧ ∀ x ∈ gdprDatesOf plps, dateLe x m))) ∧
    (∀ t : String, (t = "safety" ∨ t = "safeguarding" ∨ t = "first_aid") →
      (∀ row ∈ rows, lookupAssoc mogl_map row.data_ng_code ≠ some t) →
      lookupAssoc res t = some []) ∧
    (∀ row ∈ rows, ∀ t : String, lookupAssoc mogl_map row.data_ng_code = some t →
      ∃ c r, lookupAssoc res t = some [("completed_date", c), ("renewal_date", r)]) := by
  intro plps rows res h
  obtain ⟨d, hf, hres⟩ := compile_ogl_ok_inv h
  refine ⟨?_, ?_, ?_, ?_⟩
  · rw [hres, List.map_map]
    have hcomp : (Prod.fst ∘ fun t : String => (t, (lookupAssoc d t).getD ([] : OglEntry))) =
        id := rfl
    rw [hcomp, List.map_id]
  · have huntouched : lookupAssoc d "gdpr" = lookupAssoc (oglInit plps) "gdpr" :=
      foldlM_lookup_untouched "gdpr" rows (oglInit plps) d
        (fun row _ hc => mogl_key_ne_gdpr hc rfl) hf
    have hinit : lookupAssoc (oglInit plps) "gdpr" =
        some [("completed_date", (List.insertionSort dateLe (gdprDatesOf plps)).getLast?)] := by
      simp [oglInit, lookupAssoc]
    have hres_gdpr : lookupAssoc res "gdpr" = some ((lookupAssoc d "gdpr").getD []) := by
      rw [hres]
      simp [mogl_types, lookupAssoc]
    refine ⟨(List.insertionSort dateLe (gdprDatesOf plps)).getLast?, ?_, ?_⟩
    · rw [hres_gdpr, huntouched, hinit]
      rfl
    · cases hl : (List.insertionSort dateLe (gdprDatesOf plps)).getLast? with
      | none =>
        left
        refine ⟨rfl, ?_⟩
        have hnil := getLastOpt_none _ hl
        have hperm := List.perm_insertionSort dateLe (gdprDatesOf plps)
        rw [hnil] at hperm
        exact hperm.symm.eq_nil
      | some m =>
        right
        refine ⟨m, rfl, ?_, ?_⟩
        · exact (List.perm_insertionSort dateLe _).subset (getLastOpt_mem _ m hl)
        · intro x hx
          exact sorted_rel_getLast _ (List.sorted_insertionSort dateLe (gdprDatesOf plps))
            m hl x ((List.perm_insertionSort dateLe _).symm.subset hx)
  · intro t ht hnone
    have huntouched := foldlM_lookup_untouched t rows (oglInit plps) d hnone hf
    have hinit : lookupAssoc (oglInit plps) t = none := by
      rcases ht with h' | h' | h' <;> (subst h'; simp [oglInit, lookupAssoc])
    have hrt : lookupAssoc res t = some ((lookupAssoc d t).getD []) := by
      rw [hres]
      rcases ht with h' | h' | h' <;> (subst h'; simp [mogl_types, lookupAssoc])
    rw [hrt, huntouched, hinit]
    rfl
  · intro row hrow t hcode
    obtain ⟨c, r, hd⟩ := foldlM_present t rows (oglInit plps) d hf row hrow hcode
    have htval := mogl_map_values hcode
    have hrt : lookupAssoc res t = some ((lookupAssoc d t).getD []) := by
      rw [hres]
      rcases htval with h' | h' | h' <;> (subst h'; simp [mogl_types, lookupAssoc])
    rw [hrt, hd]
    exact ⟨c, r, rfl⟩

theorem ongoing_learning_spec_witness :
    ([("gdpr", [("completed_date", some (Date.mk 2020 1 1))]), ("safety", []),
      ("safeguarding", []), ("first_aid", [])] :
        List (String × OglEntry)).map Prod.fst = mogl_types :=
  (ongoing_learning_spec [(1, [⟨"GDPR", some ⟨2020, 1, 1⟩⟩])] [] _ (by decide)).1
